import Mathlib

/-!
# Verification of the action-queue / command-bridge layer of `qt/aqt/webview.py`

This file gives a shallow embedding of the readiness state machine, pending-action
queue, bridge command dispatch, lifecycle guard and navigation policy implemented
by `AnkiWebPage` and `AnkiWebView` in `src/qt/aqt/webview.py`, and proves the
specification claims about them.

Modelling conventions:
* Python object state (`_domDone`, `_pendingActions`, `_filterSet`, `requiresCol`,
  `open_links_externally`, the registered `onBridgeCmd` handler, the media-server
  page blob) is an explicit state record, threaded through each operation.
* Side effects that cross the boundary to the rendering engine or the OS
  (running a script, navigating, opening a link externally, printing a log line)
  are recorded as an explicit effect trace (`Eff`).
* Python exceptions (the `raise Exception(f"unknown action: ...")` branch of
  `_maybeRunActions`, and exceptions raised by user handlers) are modelled with
  `Except String`.
* External collaborators that the spec declares out of scope are parameters:
  `mw.col` presence is `Env.colPresent`, the `gui_hooks.webview_did_receive_js_message`
  bus is the opaque function `Env.hook`, `sip.isdeleted(self)` is the state flag
  `deleted`, and `mw.serverURL()` is a `Url` parameter of the navigation policy.
* Script payload strings whose exact text is irrelevant to queue/bridge semantics
  (the theme-change JS of `on_theme_did_change` and the style-injection JS of
  `inject_dynamic_style_and_show`) are represented by marker strings; the queueing
  structure around them is modelled exactly.
-/

namespace AnkiWeb

/-- A Python value crossing the bridge (handlers have type `Callable[[str], Any]`;
`json.dumps` serializes the result). Only the constructors needed by the bridge
protocol are modelled. -/
inductive PyVal where
  | pnone
  | pstr (s : String)
  | pbool (b : Bool)
  | pint (n : Int)
deriving DecidableEq

/-- Minimal model of Python `json.dumps` on `PyVal`: `None` becomes `"null"`,
booleans and integers their JSON spelling, strings are quoted (escaping of the
quote and backslash characters only; other escapes do not arise here). -/
def jsonDumps : PyVal → String
  | PyVal.pnone => "null"
  | PyVal.pbool true => "true"
  | PyVal.pbool false => "false"
  | PyVal.pint n => toString n
  | PyVal.pstr s =>
      let esc := String.join (s.data.map (fun c =>
        if c = '"' then "\\\"" else if c = '\\' then "\\\\" else String.singleton c))
      "\"" ++ esc ++ "\""

/-- An argument stored in a `_pendingActions` tuple: `_queueAction(name, *args)`
stores either strings (html / js source) or an optional callback. Callbacks are
identified by an opaque token (`Nat`); `none` is Python `None` as passed by
`eval`. -/
inductive Arg where
  | astr (s : String)
  | acb (c : Option Nat)

/-- One entry of `AnkiWebView._pendingActions`: the tuple `(name, args)` appended
by `_queueAction`. -/
structure Action where
  name : String
  args : List Arg

/-- The `("eval", js, cb)` tuple queued by `evalWithCallback` (and by `eval`,
which passes `cb = None`). -/
def mkEvalAction (p : String × Option Nat) : Action :=
  { name := "eval", args := [Arg.astr p.1, Arg.acb p.2] }

/-- The `("setHtml", html)` tuple queued by `setHtml`. -/
def mkSetHtmlAction (html : String) : Action :=
  { name := "setHtml", args := [Arg.astr html] }

/-- The registered per-context bridge command handler: after `resetHandlers` it is
`defaultOnBridgeCmd`; `set_bridge_command` installs a user function, which (being
arbitrary Python) may raise. -/
inductive Handler where
  | default
  | fn (f : String → Except String PyVal)

/-- Observable effects emitted toward the rendering engine / OS. -/
inductive Eff where
  | runJS (js : String) (cb : Option Nat)
  | loadLegacyPage (html : String)
  | loadUrl (page : String)
  | log (msg : String)
  | hookDispatch (cmd : String)
  | handlerCall (cmd : String)
  | cbFired (cb : Nat) (val : PyVal)
  | showView

/-- The mutable per-view state of `AnkiWebView` (minus the queue):
`_domDone`, deletion status of the underlying C++ object (`sip.isdeleted`),
`requiresCol`, `_filterSet`, the media-server blob stored by
`mw.mediaServer.set_page_html(id(self), html)`, the page's
`open_links_externally` flag, the registered handler and `_bridge_context`. -/
structure Core where
  domDone : Bool
  deleted : Bool
  requiresCol : Bool
  filterSet : Bool
  pageHtml : Option String
  openLinksExternally : Bool
  handler : Handler
  bridgeContext : Option Nat

/-- Full view state: core fields plus `_pendingActions`. -/
structure VState where
  core : Core
  pendingActions : List Action

/-- Ambient host context: whether `mw.col` is open, and the opaque
`gui_hooks.webview_did_receive_js_message` bus (given the command and the
`_bridge_context`, did some subscriber handle it, and with what result). -/
structure Env where
  colPresent : Bool
  hook : String → Option Nat → Bool × PyVal

/-- `AnkiWebView._shouldIgnoreWebEvent`: true when the underlying webview was
deleted, or the collection is closed while the view requires one. -/
def shouldIgnoreWebEvent (c : Core) (colPresent : Bool) : Bool :=
  c.deleted || (!colPresent && c.requiresCol)

/-- Executing one dequeued action inside `_maybeRunActions`:
`"eval"` dispatches to `_evalWithCallback` (which submits the script to the
engine via `runJavaScript`, with or without a result handler), `"setHtml"`
dispatches to `_setHtml` (which clears `_domDone`, stores the page html with the
media server and navigates to the `legacyPageData` URL — `load_url` sets
`_domDone = False` again), and any other name raises
`Exception("unknown action: ...")`. Wrong tuple arity would be a Python
`TypeError` on the `*args` unpacking. -/
def execActionCore (c : Core) (a : Action) : Except String (Core × List Eff) :=
  if a.name == "eval" then
    match a.args with
    | [Arg.astr js, Arg.acb cb] => .ok (c, [Eff.runJS js cb])
    | _ => .error "TypeError: eval args"
  else if a.name == "setHtml" then
    match a.args with
    | [Arg.astr html] =>
        .ok ({ c with domDone := false, pageHtml := some html }, [Eff.loadLegacyPage html])
    | _ => .error "TypeError: setHtml args"
  else .error ("unknown action: " ++ a.name)

/-- The drain loop of `_maybeRunActions`:
`while self._pendingActions and self._domDone: name, args = self._pendingActions.pop(0); ...`.
Returns the core state after draining, the actions left queued, and the emitted
effects. -/
def drainGo : Core → List Action → Except String (Core × List Action × List Eff)
  | c, [] => .ok (c, [], [])
  | c, a :: rest =>
    if c.domDone then
      match execActionCore c a with
      | .error e => .error e
      | .ok (c2, effs) =>
        match drainGo c2 rest with
        | .error e => .error e
        | .ok (c3, rem, effs2) => .ok (c3, rem, effs ++ effs2)
    else .ok (c, a :: rest, [])

/-- `AnkiWebView._maybeRunActions`: returns immediately when the view has been
deleted, otherwise runs the drain loop. -/
def maybeRunActions (s : VState) : Except String (VState × List Eff) :=
  if s.core.deleted then .ok (s, [])
  else
    match drainGo s.core s.pendingActions with
    | .error e => .error e
    | .ok (c, rem, effs) => .ok ({ core := c, pendingActions := rem }, effs)

/-- `AnkiWebView._queueAction(name, *args)`: append the tuple, then
`_maybeRunActions`. -/
def queueAction (s : VState) (a : Action) : Except String (VState × List Eff) :=
  maybeRunActions { s with pendingActions := s.pendingActions ++ [a] }

/-- `AnkiWebView.setHtml`: discard any previous pending actions, set
`_domDone = True`, queue a `("setHtml", html)` action (which drains immediately),
then `set_open_links_externally(True)` and `show()`. -/
def setHtmlOp (s : VState) (html : String) : Except String (VState × List Eff) :=
  let s1 : VState := { core := { s.core with domDone := true }, pendingActions := [] }
  match queueAction s1 (mkSetHtmlAction html) with
  | .error e => .error e
  | .ok (s2, effs) =>
      .ok ({ s2 with core := { s2.core with openLinksExternally := true } },
           effs ++ [Eff.showView])

/-- `AnkiWebView.evalWithCallback(js, cb)`: queue an `("eval", js, cb)` action. -/
def evalWithCallbackOp (s : VState) (js : String) (cb : Option Nat) :
    Except String (VState × List Eff) :=
  queueAction s (mkEvalAction (js, cb))

/-- `AnkiWebView.eval(js)` = `evalWithCallback(js, None)`. -/
def evalOp (s : VState) (js : String) : Except String (VState × List Eff) :=
  evalWithCallbackOp s js none

/-- `AnkiWebView.stdHtml`: assembles a full HTML document (head/css/js bundling,
theme classes — all external string building that does not touch queue or
readiness state) and ends with `self.setHtml(html)`. The assembled document is
abstracted as the `html` argument. -/
def stdHtmlOp (s : VState) (html : String) : Except String (VState × List Eff) :=
  setHtmlOp s html

/-- `AnkiWebView.adjustHeightToFit`:
`evalWithCallback("document.documentElement.offsetHeight", self._onHeight)`;
the `_onHeight` bound method is the callback token `cb`. -/
def adjustHeightToFitOp (s : VState) (cb : Nat) : Except String (VState × List Eff) :=
  evalWithCallbackOp s "document.documentElement.offsetHeight" (some cb)

/-- Marker for the style-injection script of `inject_dynamic_style_and_show`
(its literal JS text manipulates the DOM only and is irrelevant to queue
semantics). -/
def injectStyleScript : String := "inject-dynamic-style"

/-- Marker for the theme-update script of `on_theme_did_change` (DOM class
toggling; text irrelevant to queue semantics). -/
def themeChangeScript (night : Bool) : String :=
  "theme-change " ++ (if night then "night" else "day")

/-- `AnkiWebView.load_ts_page(name)`: `set_open_links_externally(True)`, hide
(pure layout), `load_url(...)` (which sets `_domDone = False` and navigates),
then `inject_dynamic_style_and_show` which queues an eval with the
`after_style` callback `cb`. -/
def loadTsPageOp (s : VState) (page : String) (cb : Nat) :
    Except String (VState × List Eff) :=
  match evalWithCallbackOp
      { s with core := { s.core with openLinksExternally := true, domDone := false } }
      injectStyleScript (some cb) with
  | .error e => .error e
  | .ok (s3, effs) => .ok (s3, Eff.loadUrl page :: effs)

/-- `AnkiWebView.on_theme_did_change`: updates the page background color
(external) and calls `self.eval(...)` with the theme-update script. -/
def onThemeDidChangeOp (s : VState) (night : Bool) : Except String (VState × List Eff) :=
  evalOp s (themeChangeScript night)

/-- Invoking the registered handler: `defaultOnBridgeCmd` prints
`"unhandled bridge cmd:"` and returns `None`; a user handler may raise. -/
def runHandler (h : Handler) (cmd : String) : Except String (PyVal × List Eff) :=
  match h with
  | Handler.default => .ok (PyVal.pnone, [Eff.log ("unhandled bridge cmd: " ++ cmd)])
  | Handler.fn f =>
      match f cmd with
      | .error e => .error e
      | .ok v => .ok (v, [Eff.handlerCall cmd])

/-- `AnkiWebView._onBridgeCmd(cmd)`: consult the lifecycle guard (log and return
`None` when stale); install the focus event filter once; special-case the
`"domDone"` sentinel (set `_domDone = True` and drain, returning `None`);
otherwise give hook subscribers first refusal and fall back to the registered
handler. -/
def onBridgeCmdFn (env : Env) (s : VState) (cmd : String) :
    Except String (VState × PyVal × List Eff) :=
  if shouldIgnoreWebEvent s.core env.colPresent then
    .ok (s, PyVal.pnone, [Eff.log ("ignored late bridge cmd " ++ cmd)])
  else
    let s1 : VState := { s with core := { s.core with filterSet := true } }
    if cmd == "domDone" then
      match maybeRunActions { s1 with core := { s1.core with domDone := true } } with
      | .error e => .error e
      | .ok (s2, effs) => .ok (s2, PyVal.pnone, effs)
    else
      let hr := env.hook cmd s1.core.bridgeContext
      if hr.1 then .ok (s1, hr.2, [Eff.hookDispatch cmd])
      else
        match runHandler s1.core.handler cmd with
        | .error e => .error e
        | .ok (v, effs) => .ok (s1, v, Eff.hookDispatch cmd :: effs)

/-- `Bridge.cmd` (the `pyqtSlot` registered on the web channel):
`return json.dumps(self.onCmd(str))` — serializes the handler result; contains
no exception handling, so an exception from `onCmd` propagates. -/
def bridgeCmd (env : Env) (s : VState) (cmd : String) :
    Except String (VState × String × List Eff) :=
  match onBridgeCmdFn env s cmd with
  | .error e => .error e
  | .ok (s2, v, effs) => .ok (s2, jsonDumps v, effs)

/-- The result handler installed by `_evalWithCallback` for a script with a
callback: when the engine delivers the value, the handler consults the lifecycle
guard and drops the value (logging) when stale, otherwise fires the user
callback. -/
def lateJsCallbackHandler (s : VState) (colPresent : Bool) (cb : Nat) (val : PyVal) :
    List Eff :=
  if shouldIgnoreWebEvent s.core colPresent then [Eff.log "ignored late js callback"]
  else [Eff.cbFired cb val]

/-- `AnkiWebView.resetHandlers`: restore `defaultOnBridgeCmd` and clear the
bridge context. -/
def resetHandlers (s : VState) : VState :=
  { s with core := { s.core with handler := Handler.default, bridgeContext := none } }

/-- `AnkiWebView.set_bridge_command(func, context)`. -/
def setBridgeCommand (s : VState) (f : String → Except String PyVal) (ctx : Option Nat) :
    VState :=
  { s with core := { s.core with handler := Handler.fn f, bridgeContext := ctx } }

/-- The state established by `AnkiWebView.__init__`: `_domDone = True`, empty
queue, `requiresCol = True`, handlers reset, no event filter installed, links
opened externally (page constructor). -/
def initCore : Core :=
  { domDone := true, deleted := false, requiresCol := true, filterSet := false,
    pageHtml := none, openLinksExternally := true, handler := Handler.default,
    bridgeContext := none }

/-- Freshly constructed view state. -/
def initState : VState := { core := initCore, pendingActions := [] }

/-- The public operations of the claims' scope, as a syntax of events applied to
a view state. -/
inductive Op where
  | opSetHtml (html : String)
  | opStdHtml (html : String)
  | opEval (js : String)
  | opEvalWithCallback (js : String) (cb : Nat)
  | opAdjustHeightToFit (cb : Nat)
  | opLoadTsPage (page : String) (cb : Nat)
  | opThemeDidChange (night : Bool)
  | opDomDone

/-- Interpretation of one public operation. -/
def runOp (env : Env) (s : VState) : Op → Except String (VState × List Eff)
  | Op.opSetHtml html => setHtmlOp s html
  | Op.opStdHtml html => stdHtmlOp s html
  | Op.opEval js => evalOp s js
  | Op.opEvalWithCallback js cb => evalWithCallbackOp s js (some cb)
  | Op.opAdjustHeightToFit cb => adjustHeightToFitOp s cb
  | Op.opLoadTsPage page cb => loadTsPageOp s page cb
  | Op.opThemeDidChange night => onThemeDidChangeOp s night
  | Op.opDomDone =>
      match onBridgeCmdFn env s "domDone" with
      | .error e => .error e
      | .ok (s2, _, effs) => .ok (s2, effs)

/-- Interpretation of a sequence of public operations, accumulating the effect
trace. -/
def runOps (env : Env) : List Op → VState → Except String (VState × List Eff)
  | [], s => .ok (s, [])
  | op :: ops, s =>
    match runOp env s op with
    | .error e => .error e
    | .ok (s2, effs) =>
      match runOps env ops s2 with
      | .error e => .error e
      | .ok (s3, effs2) => .ok (s3, effs ++ effs2)

/-! ## Navigation policy (`AnkiWebPage.acceptNavigationRequest`) -/

/-- A parsed URL as compared by the navigation policy (the components `QUrl`
compares: scheme, host, port, path, query, fragment; user info never occurs
here). -/
structure Url where
  scheme : String
  host : String
  port : Int
  path : String
  query : Option String
  fragment : Option String
deriving DecidableEq

/-- Character-list prefix test (used by the substring test below). -/
def charsStartWith : List Char → List Char → Bool
  | _, [] => true
  | [], _ :: _ => false
  | h :: t, n :: m => h == n && charsStartWith t m

/-- Character-list substring containment, modelling Python's `in` on strings. -/
def charsContain : List Char → List Char → Bool
  | [], needle => charsStartWith [] needle
  | h :: t, needle => charsStartWith (h :: t) needle || charsContain t needle

/-- Python `needle in hay` on strings. -/
def strContains (hay needle : String) : Bool :=
  charsContain hay.data needle.data

/-- `QUrl.matches(other, QUrl.UrlFormattingOption.RemoveFragment)`: the two URLs
are equal after removing the fragment from both (scheme, host, port, path and
query all compared). -/
def urlMatchesRemoveFragment (u v : Url) : Bool :=
  u.scheme == v.scheme && u.host == v.host && u.port == v.port &&
    u.path == v.path && u.query == v.query

/-- Outcome of one navigation request: the boolean returned to the engine, the
`openLink` calls made, the diagnostics printed, and whether the request was
passed to the engine's default `super().acceptNavigationRequest`. -/
structure NavResponse where
  allow : Bool
  openedExternally : List Url
  logged : List String
  usedDefaultHandling : Bool
deriving DecidableEq

/-- `AnkiWebPage.acceptNavigationRequest(url, navType, isMainFrame)`.
`serverUrl` is the value of `mw.serverURL()` (the host's own origin with path
`/`, provided by `aqt.main`, outside this module); `superAllow` is the engine's
default decision. -/
def acceptNavigationRequest (openLinksExternally : Bool) (serverUrl : Url)
    (superAllow : Bool) (url : Url) (isMainFrame : Bool) : NavResponse :=
  if !openLinksExternally || strContains url.path "_anki/pages" ||
      url.path == "/_anki/legacyPageData" then
    { allow := superAllow, openedExternally := [], logged := [],
      usedDefaultHandling := true }
  else if !isMainFrame then
    { allow := true, openedExternally := [], logged := [], usedDefaultHandling := false }
  else if url.scheme == "data" then
    { allow := true, openedExternally := [], logged := [], usedDefaultHandling := false }
  else if urlMatchesRemoveFragment url serverUrl then
    { allow := false, openedExternally := [],
      logged := ["onclick handler needs to return false"], usedDefaultHandling := false }
  else
    { allow := false, openedExternally := [url], logged := [],
      usedDefaultHandling := false }

/-- Modelled from the spec: the claim's notion of "the host's own origin (same
scheme+host+port, ignoring fragment)". Stated from the spec's words, to be
compared with the source's `urlMatchesRemoveFragment` check. -/
def specSameOrigin (u v : Url) : Bool :=
  u.scheme == v.scheme && u.host == v.host && u.port == v.port

/-- The public entry point that queues a given script evaluation:
`eval` when no callback is supplied, `evalWithCallback` otherwise. -/
def evalOpOf (p : String × Option Nat) : Op :=
  match p.2 with
  | none => Op.opEval p.1
  | some c => Op.opEvalWithCallback p.1 c

/-! ## Drain lemmas -/

lemma drainGo_not_ready (c : Core) (h : c.domDone = false) :
    ∀ q : List Action, drainGo c q = .ok (c, q, []) := by
  intro q
  cases q with
  | nil => rfl
  | cons a t => simp [drainGo, h]

lemma execActionCore_eval (c : Core) (p : String × Option Nat) :
    execActionCore c (mkEvalAction p) = .ok (c, [Eff.runJS p.1 p.2]) := rfl

lemma execActionCore_setHtml (c : Core) (html : String) :
    execActionCore c (mkSetHtmlAction html) =
      .ok ({ c with domDone := false, pageHtml := some html },
           [Eff.loadLegacyPage html]) := rfl

lemma drainGo_evals (c : Core) (h : c.domDone = true) :
    ∀ l : List (String × Option Nat),
      drainGo c (l.map mkEvalAction) =
        .ok (c, [], l.map fun p => Eff.runJS p.1 p.2) := by
  intro l
  induction l with
  | nil => rfl
  | cons p t ih => simp [drainGo, h, execActionCore_eval, ih]

lemma drainGo_evals_setHtml (c : Core) (h : c.domDone = true) (html : String)
    (ys : List Action) :
    ∀ l : List (String × Option Nat),
      drainGo c (l.map mkEvalAction ++ mkSetHtmlAction html :: ys) =
        .ok ({ c with domDone := false, pageHtml := some html }, ys,
             (l.map fun p => Eff.runJS p.1 p.2) ++ [Eff.loadLegacyPage html]) := by
  intro l
  induction l with
  | nil =>
      simp only [List.map_nil, List.nil_append]
      simp [drainGo, h, execActionCore_setHtml, drainGo_not_ready]
  | cons p t ih => simp [drainGo, h, execActionCore_eval, ih]

lemma queueAction_not_ready (s : VState) (a : Action)
    (hdd : s.core.domDone = false) (hdel : s.core.deleted = false) :
    queueAction s a = .ok ({ s with pendingActions := s.pendingActions ++ [a] }, []) := by
  simp [queueAction, maybeRunActions, hdel, drainGo_not_ready _ hdd]

lemma setHtmlOp_eq (s : VState) (html : String) (hdel : s.core.deleted = false) :
    setHtmlOp s html =
      .ok ({ core := { s.core with domDone := false, pageHtml := some html,
                                   openLinksExternally := true },
             pendingActions := [] },
           [Eff.loadLegacyPage html, Eff.showView]) := by
  simp [setHtmlOp, queueAction, maybeRunActions, hdel, drainGo, execActionCore_setHtml,
        mkSetHtmlAction, execActionCore]

lemma onBridgeCmd_domDone_evals (env : Env) (s : VState) (l : List (String × Option Nat))
    (hstale : shouldIgnoreWebEvent s.core env.colPresent = false)
    (hq : s.pendingActions = l.map mkEvalAction) :
    onBridgeCmdFn env s "domDone" =
      .ok ({ core := { s.core with filterSet := true, domDone := true },
             pendingActions := [] },
           PyVal.pnone, l.map fun p => Eff.runJS p.1 p.2) := by
  have hdel : s.core.deleted = false := by
    cases hd : s.core.deleted
    · rfl
    · rw [shouldIgnoreWebEvent, hd] at hstale; simp at hstale
  simp [onBridgeCmdFn, hstale, maybeRunActions, hdel, hq, drainGo_evals]

lemma runOp_evalOpOf (env : Env) (s : VState) (p : String × Option Nat) :
    runOp env s (evalOpOf p) = queueAction s (mkEvalAction p) := by
  obtain ⟨js, cb⟩ := p
  cases cb <;> rfl

lemma runOps_enqueue_not_ready (env : Env) :
    ∀ (l : List (String × Option Nat)) (s : VState),
      s.core.domDone = false → s.core.deleted = false →
      runOps env (l.map evalOpOf) s =
        .ok ({ s with pendingActions := s.pendingActions ++ l.map mkEvalAction }, []) := by
  intro l
  induction l with
  | nil => intro s _ _; simp [runOps]
  | cons p t ih =>
      intro s hdd hdel
      have h1 := queueAction_not_ready s (mkEvalAction p) hdd hdel
      have h2 := ih { s with pendingActions := s.pendingActions ++ [mkEvalAction p] }
        hdd hdel
      simp [runOps, runOp_evalOpOf, h1, h2, List.append_assoc]

/-! ## Claim theorems (first group) -/

/-- Claim C1: actions queued through the public interface while `_domDone` is
`False` are only appended (no action executes, no engine effect is emitted), and
once the `"domDone"` sentinel is received they all execute in exact submission
(FIFO) order: the emitted script-evaluation effects are the queued pairs in
order. (`setHtml` sets `_domDone = True` before queueing, so the actions
queueable while NotReady are exactly the `eval`/`evalWithCallback` ones.) -/
theorem C1_fifo_after_ready (env : Env) (s : VState) (l : List (String × Option Nat))
    (hdd : s.core.domDone = false) (hdel : s.core.deleted = false)
    (hq : s.pendingActions = []) (hcol : env.colPresent = true) :
    ∃ s1, runOps env (l.map evalOpOf) s = .ok (s1, []) ∧
      s1.pendingActions = l.map mkEvalAction ∧ s1.core = s.core ∧
      onBridgeCmdFn env s1 "domDone" =
        .ok ({ core := { s.core with filterSet := true, domDone := true },
               pendingActions := [] },
             PyVal.pnone, l.map fun p => Eff.runJS p.1 p.2) := by
  refine ⟨_, runOps_enqueue_not_ready env l s hdd hdel, ?_, rfl, ?_⟩
  · simp [hq]
  · apply onBridgeCmd_domDone_evals
    · simp [shouldIgnoreWebEvent, hdel, hcol]
    · simp [hq]

/-- Environment with an open collection and no hook subscriber. -/
def plainEnv : Env := { colPresent := true, hook := fun _ _ => (false, PyVal.pnone) }

/-- A view that has issued a content load and not yet received `"domDone"`. -/
def notReadyState : VState :=
  { core := { initCore with domDone := false }, pendingActions := [] }

theorem C1_fifo_after_ready_witness :
    notReadyState.core.domDone = false ∧ notReadyState.core.deleted = false ∧
    notReadyState.pendingActions = [] ∧ plainEnv.colPresent = true ∧
    ∃ s1, runOps plainEnv (([("a", none), ("b", some 5)] :
          List (String × Option Nat)).map evalOpOf) notReadyState = .ok (s1, []) ∧
      s1.pendingActions = ([("a", none), ("b", some 5)] :
          List (String × Option Nat)).map mkEvalAction ∧
      s1.core = notReadyState.core ∧
      onBridgeCmdFn plainEnv s1 "domDone" =
        .ok ({ core := { notReadyState.core with filterSet := true, domDone := true },
               pendingActions := [] },
             PyVal.pnone, ([("a", none), ("b", some 5)] :
               List (String × Option Nat)).map fun p => Eff.runJS p.1 p.2) :=
  ⟨rfl, rfl, rfl, rfl, C1_fifo_after_ready plainEnv notReadyState _ rfl rfl rfl rfl⟩

/-- Claim C3 counterexample: a `"domDone"` command received while the lifecycle
guard reports stale (here: collection closed while `requiresCol` holds) returns
without setting `_domDone`, so ReadinessState does not transition to Ready,
contradicting the claim's "for every call". -/
theorem C3_counterexample :
    onBridgeCmdFn { colPresent := false, hook := fun _ _ => (false, PyVal.pnone) }
        notReadyState "domDone" =
      .ok (notReadyState, PyVal.pnone, [Eff.log "ignored late bridge cmd domDone"]) ∧
    notReadyState.core.domDone = false := ⟨rfl, rfl⟩

/-- Claim C3 (amended): for every `"domDone"` command received while the
lifecycle guard reports non-stale, and with only script-evaluation actions
pending (the only queue contents reachable through the public interface),
`_domDone` becomes `True`, the command is never passed to hook dispatch or the
registered handler, and no payload (`None`) is returned. -/
theorem C3_domDone_marks_ready (env : Env) (s : VState) (l : List (String × Option Nat))
    (hstale : shouldIgnoreWebEvent s.core env.colPresent = false)
    (hq : s.pendingActions = l.map mkEvalAction) :
    ∃ s1 effs, onBridgeCmdFn env s "domDone" = .ok (s1, PyVal.pnone, effs) ∧
      s1.core.domDone = true ∧
      (∀ c, Eff.hookDispatch c ∉ effs) ∧ (∀ c, Eff.handlerCall c ∉ effs) := by
  refine ⟨_, _, onBridgeCmd_domDone_evals env s l hstale hq, rfl, ?_, ?_⟩ <;>
    · intro c hc
      simp [List.mem_map] at hc

theorem C3_domDone_marks_ready_witness :
    shouldIgnoreWebEvent
        ({ core := { initCore with domDone := false },
           pendingActions := [mkEvalAction ("x", some 2)] } : VState).core
        plainEnv.colPresent = false ∧
    ({ core := { initCore with domDone := false },
       pendingActions := [mkEvalAction ("x", some 2)] } : VState).pendingActions =
      ([("x", some 2)] : List (String × Option Nat)).map mkEvalAction ∧
    ∃ s1 effs, onBridgeCmdFn plainEnv
        { core := { initCore with domDone := false },
          pendingActions := [mkEvalAction ("x", some 2)] } "domDone" =
        .ok (s1, PyVal.pnone, effs) ∧
      s1.core.domDone = true ∧
      (∀ c, Eff.hookDispatch c ∉ effs) ∧ (∀ c, Eff.handlerCall c ∉ effs) :=
  ⟨rfl, rfl, C3_domDone_marks_ready plainEnv _ [("x", some 2)] rfl rfl⟩

/-- Claim C4: a stale inbound command is discarded: `_onBridgeCmd` returns
(without raising) the value `None` with only a diagnostic log effect, the state
(readiness, queue, everything) is returned unchanged, and no hook dispatch or
handler call occurs; likewise the result handler installed by
`_evalWithCallback` drops a late value without firing the user callback. -/
theorem C4_stale_discard (env : Env) (s : VState) (cmd : String) (cb : Nat) (val : PyVal)
    (h : shouldIgnoreWebEvent s.core env.colPresent = true) :
    onBridgeCmdFn env s cmd =
      .ok (s, PyVal.pnone, [Eff.log ("ignored late bridge cmd " ++ cmd)]) ∧
    lateJsCallbackHandler s env.colPresent cb val = [Eff.log "ignored late js callback"] := by
  constructor
  · simp [onBridgeCmdFn, h]
  · simp [lateJsCallbackHandler, h]

/-- Environment with a closed collection. -/
def noColEnv : Env := { colPresent := false, hook := fun _ _ => (false, PyVal.pnone) }

theorem C4_stale_discard_witness :
    shouldIgnoreWebEvent notReadyState.core noColEnv.colPresent = true ∧
    onBridgeCmdFn noColEnv notReadyState "foo" =
      .ok (notReadyState, PyVal.pnone, [Eff.log ("ignored late bridge cmd " ++ "foo")]) ∧
    lateJsCallbackHandler notReadyState noColEnv.colPresent 7 (PyVal.pint 3) =
      [Eff.log "ignored late js callback"] :=
  ⟨rfl, C4_stale_discard noColEnv notReadyState "foo" 7 (PyVal.pint 3) rfl⟩

/-- Claim C6: the drain loop executes actions only while `_domDone` holds: with
a queue of evaluations followed by a `setHtml` action and arbitrary later
actions, draining executes the evaluations and the `setHtml` (which flips
`_domDone` off) and stops, leaving every later action queued; and when
`_domDone` is `False` nothing at all executes. -/
theorem C6_drain_stops_on_setHtml (s : VState) (l : List (String × Option Nat))
    (html : String) (ys : List Action)
    (hdel : s.core.deleted = false)
    (hq : s.pendingActions = l.map mkEvalAction ++ mkSetHtmlAction html :: ys) :
    (s.core.domDone = true →
      maybeRunActions s =
        .ok ({ core := { s.core with domDone := false, pageHtml := some html },
               pendingActions := ys },
             (l.map fun p => Eff.runJS p.1 p.2) ++ [Eff.loadLegacyPage html])) ∧
    (s.core.domDone = false → maybeRunActions s = .ok (s, [])) := by
  constructor
  · intro hdd
    simp [maybeRunActions, hdel, hq, drainGo_evals_setHtml _ hdd]
  · intro hdd
    simp [maybeRunActions, hdel, drainGo_not_ready _ hdd]

theorem C6_drain_stops_on_setHtml_witness :
    ({ core := initCore,
       pendingActions := [mkEvalAction ("a", none), mkSetHtmlAction "H",
                          mkEvalAction ("b", some 2)] } : VState).core.deleted = false ∧
    ({ core := initCore,
       pendingActions := [mkEvalAction ("a", none), mkSetHtmlAction "H",
                          mkEvalAction ("b", some 2)] } : VState).pendingActions =
      ([("a", none)] : List (String × Option Nat)).map mkEvalAction ++
        mkSetHtmlAction "H" :: [mkEvalAction ("b", some 2)] ∧
    maybeRunActions
        { core := initCore,
          pendingActions := [mkEvalAction ("a", none), mkSetHtmlAction "H",
                             mkEvalAction ("b", some 2)] } =
      .ok ({ core := { initCore with domDone := false, pageHtml := some "H" },
             pendingActions := [mkEvalAction ("b", some 2)] },
           (([("a", none)] : List (String × Option Nat)).map fun p => Eff.runJS p.1 p.2) ++
             [Eff.loadLegacyPage "H"]) :=
  ⟨rfl, rfl,
    (C6_drain_stops_on_setHtml _ [("a", none)] "H" [mkEvalAction ("b", some 2)]
      rfl rfl).1 rfl⟩

/-- Claim C7: a non-sentinel command arriving while the default handler is
registered (the `resetHandlers` state) and no hook subscriber handles it falls
back to `defaultOnBridgeCmd`: the bridge serializes its `None` result to the
JSON string `"null"` without raising, and (determinism) each inbound command
yields at most one result. -/
theorem C7_default_handler_null (env : Env) (s : VState) (cmd : String)
    (hstale : shouldIgnoreWebEvent s.core env.colPresent = false)
    (hcmd : (cmd == "domDone") = false)
    (hh : s.core.handler = Handler.default)
    (hhook : (env.hook cmd s.core.bridgeContext).1 = false) :
    bridgeCmd env s cmd =
      .ok ({ s with core := { s.core with filterSet := true } }, "null",
           [Eff.hookDispatch cmd, Eff.log ("unhandled bridge cmd: " ++ cmd)]) ∧
    ∀ r1 r2 : VState × String × List Eff,
      bridgeCmd env s cmd = .ok r1 → bridgeCmd env s cmd = .ok r2 → r1 = r2 := by
  constructor
  · simp [bridgeCmd, onBridgeCmdFn, hstale, hcmd, runHandler, hh, hhook, jsonDumps]
  · intro r1 r2 h1 h2
    exact Except.ok.inj (h1.symm.trans h2)

theorem C7_default_handler_null_witness :
    shouldIgnoreWebEvent initState.core plainEnv.colPresent = false ∧
    (("foo" == "domDone") = false) ∧
    initState.core.handler = Handler.default ∧
    (plainEnv.hook "foo" initState.core.bridgeContext).1 = false ∧
    bridgeCmd plainEnv initState "foo" =
      .ok ({ initState with core := { initState.core with filterSet := true } }, "null",
           [Eff.hookDispatch "foo", Eff.log ("unhandled bridge cmd: " ++ "foo")]) :=
  ⟨rfl, rfl, rfl, rfl, (C7_default_handler_null plainEnv initState "foo" rfl rfl rfl rfl).1⟩

/-- Claim C8 counterexample: a registered handler that raises makes
`Bridge.cmd` itself raise — the returned value is `Except.error "boom"`, not a
null/failure JSON result, so the dispatch boundary does not catch handler
exceptions. -/
theorem C8_counterexample :
    bridgeCmd plainEnv
        { core := { initCore with handler := Handler.fn (fun _ => .error "boom") },
          pendingActions := [] } "foo" = .error "boom" := rfl

/-- Claim C8 (amended): neither `Bridge.cmd` nor `_onBridgeCmd` contains any
exception handling: an exception raised by the registered handler propagates
uncaught out of `Bridge.cmd` into the engine's callback mechanism, instead of
being converted into a null/explicit-failure JSON result. -/
theorem C8_handler_error_propagates (env : Env) (s : VState) (cmd : String)
    (f : String → Except String PyVal) (e : String)
    (hstale : shouldIgnoreWebEvent s.core env.colPresent = false)
    (hcmd : (cmd == "domDone") = false)
    (hhook : (env.hook cmd s.core.bridgeContext).1 = false)
    (hh : s.core.handler = Handler.fn f)
    (hf : f cmd = .error e) :
    bridgeCmd env s cmd = .error e := by
  simp [bridgeCmd, onBridgeCmdFn, hstale, hcmd, hhook, runHandler, hh, hf]

theorem C8_handler_error_propagates_witness :
    shouldIgnoreWebEvent
        ({ core := { initCore with handler := Handler.fn (fun _ => .error "boom") },
           pendingActions := [] } : VState).core plainEnv.colPresent = false ∧
    (("bar" == "domDone") = false) ∧
    (plainEnv.hook "bar"
        ({ core := { initCore with handler := Handler.fn (fun _ => .error "boom") },
           pendingActions := [] } : VState).core.bridgeContext).1 = false ∧
    bridgeCmd plainEnv
        { core := { initCore with handler := Handler.fn (fun _ => .error "boom") },
          pendingActions := [] } "bar" = .error "boom" :=
  ⟨rfl, rfl, rfl,
    C8_handler_error_propagates plainEnv _ "bar" (fun _ => .error "boom") "boom"
      rfl rfl rfl rfl rfl⟩

/-- Claim C9: `"domDone"` receipt is idempotent on an already-drained view:
starting from any state with an empty pending queue, processing `"domDone"`
twice in a row ends in exactly the state reached by processing it once. -/
theorem C9_domDone_idempotent (env : Env) (s : VState) (hq : s.pendingActions = []) :
    ∃ s1 r1 t1 r2 t2,
      onBridgeCmdFn env s "domDone" = .ok (s1, r1, t1) ∧
      onBridgeCmdFn env s1 "domDone" = .ok (s1, r2, t2) := by
  obtain ⟨col, hk⟩ := env
  obtain ⟨⟨dd, del, rc, fs, ph, ole, hd, bc⟩, q⟩ := s
  have hq' : q = [] := hq
  subst hq'
  cases col <;> cases del <;> cases rc <;>
    exact ⟨_, _, _, _, _, rfl, rfl⟩

theorem C9_domDone_idempotent_witness :
    initState.pendingActions = [] ∧
    ∃ s1 r1 t1 r2 t2,
      onBridgeCmdFn plainEnv initState "domDone" = .ok (s1, r1, t1) ∧
      onBridgeCmdFn plainEnv s1 "domDone" = .ok (s1, r2, t2) :=
  ⟨rfl, C9_domDone_idempotent plainEnv initState rfl⟩

/-- `mw.serverURL()` as the navigation policy sees it: the local media-server
base URL, whose path is `/`. -/
def serverUrlEx : Url :=
  { scheme := "http", host := "127.0.0.1", port := 8080, path := "/",
    query := none, fragment := none }

/-- A URL on the server's own origin (same scheme+host+port) but with a
different path. -/
def sameOriginOtherPath : Url :=
  { scheme := "http", host := "127.0.0.1", port := 8080, path := "/deckbrowser",
    query := none, fragment := none }

/-- Claim C5 counterexample: a main-frame navigation to the server's own origin
(same scheme+host+port) but a different path is *not* suppressed silently as the
claim states: the code's check is `QUrl.matches(..., RemoveFragment)` — a full
URL comparison — so this request goes to the external-opener branch
(`openLink` is called). -/
theorem C5_counterexample :
    specSameOrigin sameOriginOtherPath serverUrlEx = true ∧
    (acceptNavigationRequest true serverUrlEx true sameOriginOtherPath true).allow = false ∧
    (acceptNavigationRequest true serverUrlEx true sameOriginOtherPath
        true).openedExternally = [sameOriginOtherPath] := ⟨rfl, rfl, rfl⟩

/-- Claim C5 (amended): with `open_links_externally` enabled and a target outside
the internal route prefixes: a non-main-frame request to any URL is allowed; a
main-frame `data:` URL is allowed; a main-frame request equal to the server base
URL up to fragment removal (a full-URL match of scheme, host, port, path and
query — not a mere origin match) is suppressed with a diagnostic and without
calling the external opener; and any other main-frame request is suppressed
after calling the external opener exactly once. -/
theorem C5_navigation_policy (serverUrl url : Url) (superA mainframe : Bool)
    (hp1 : strContains url.path "_anki/pages" = false)
    (hp2 : (url.path == "/_anki/legacyPageData") = false) :
    (mainframe = false →
      acceptNavigationRequest true serverUrl superA url mainframe =
        { allow := true, openedExternally := [], logged := [],
          usedDefaultHandling := false }) ∧
    (mainframe = true → (url.scheme == "data") = true →
      acceptNavigationRequest true serverUrl superA url mainframe =
        { allow := true, openedExternally := [], logged := [],
          usedDefaultHandling := false }) ∧
    (mainframe = true → (url.scheme == "data") = false →
      urlMatchesRemoveFragment url serverUrl = true →
      acceptNavigationRequest true serverUrl superA url mainframe =
        { allow := false, openedExternally := [],
          logged := ["onclick handler needs to return false"],
          usedDefaultHandling := false }) ∧
    (mainframe = true → (url.scheme == "data") = false →
      urlMatchesRemoveFragment url serverUrl = false →
      acceptNavigationRequest true serverUrl superA url mainframe =
        { allow := false, openedExternally := [url], logged := [],
          usedDefaultHandling := false }) := by
  refine ⟨?_, ?_, ?_, ?_⟩
  · intro h1
    simp [acceptNavigationRequest, hp1, hp2, h1]
  · intro h1 h2
    simp [acceptNavigationRequest, hp1, hp2, h1, h2]
  · intro h1 h2 h3
    simp [acceptNavigationRequest, hp1, hp2, h1, h2, h3]
  · intro h1 h2 h3
    simp [acceptNavigationRequest, hp1, hp2, h1, h2, h3]

/-- An unrelated external URL. -/
def extUrl : Url :=
  { scheme := "https", host := "example.com", port := 443, path := "/page",
    query := none, fragment := none }

theorem C5_navigation_policy_witness :
    strContains extUrl.path "_anki/pages" = false ∧
    ((extUrl.path == "/_anki/legacyPageData") = false) ∧
    urlMatchesRemoveFragment extUrl serverUrlEx = false ∧
    acceptNavigationRequest true serverUrlEx true extUrl true =
      { allow := false, openedExternally := [extUrl], logged := [],
        usedDefaultHandling := false } :=
  ⟨rfl, rfl, rfl,
    (C5_navigation_policy serverUrlEx extUrl true true rfl rfl).2.2.2 rfl rfl rfl⟩

/-! ## Callback accounting

Callbacks are opaque tokens; an engine may fire a callback only after the host
submitted the corresponding script via a `runJS` effect. These functions collect
the callback tokens mentioned in queue entries, effect traces and public
operations. -/

/-- Callback tokens of one stored argument. -/
def argCbsOf : Arg → List Nat
  | Arg.acb (some n) => [n]
  | _ => []

/-- Callback tokens of an argument list. -/
def argCbs : List Arg → List Nat
  | [] => []
  | a :: rest => argCbsOf a ++ argCbs rest

/-- Callback tokens stored in one queued action. -/
def actionCbs (a : Action) : List Nat := argCbs a.args

/-- Callback tokens stored in a queue. -/
def actsCbs : List Action → List Nat
  | [] => []
  | a :: rest => actionCbs a ++ actsCbs rest

/-- Callback tokens stored in a view state's pending queue. -/
def stateCbs (s : VState) : List Nat := actsCbs s.pendingActions

/-- Callback token submitted to the engine by one effect. -/
def effCbsOf : Eff → List Nat
  | Eff.runJS _ (some n) => [n]
  | _ => []

/-- Callback tokens submitted to the engine by a trace. -/
def effCbs : List Eff → List Nat
  | [] => []
  | e :: rest => effCbsOf e ++ effCbs rest

/-- Callback tokens mentioned by one public operation. -/
def opCbs : Op → List Nat
  | Op.opEvalWithCallback _ c => [c]
  | Op.opAdjustHeightToFit c => [c]
  | Op.opLoadTsPage _ c => [c]
  | _ => []

/-- Callback tokens mentioned by a sequence of public operations. -/
def opsCbs : List Op → List Nat
  | [] => []
  | op :: ops => opCbs op ++ opsCbs ops

lemma effCbs_append (l1 l2 : List Eff) : effCbs (l1 ++ l2) = effCbs l1 ++ effCbs l2 := by
  induction l1 with
  | nil => rfl
  | cons e t ih => simp [effCbs, ih, List.append_assoc]

lemma actsCbs_append (l1 l2 : List Action) :
    actsCbs (l1 ++ l2) = actsCbs l1 ++ actsCbs l2 := by
  induction l1 with
  | nil => rfl
  | cons a t ih => simp [actsCbs, ih, List.append_assoc]

lemma mem_effCbs_of_runJS {js : String} {c : Nat} {effs : List Eff}
    (h : Eff.runJS js (some c) ∈ effs) : c ∈ effCbs effs := by
  induction effs with
  | nil => cases h
  | cons e t ih =>
      rcases List.mem_cons.mp h with h1 | h1
      · subst h1; simp [effCbs, effCbsOf]
      · simp [effCbs, List.mem_append, ih h1]

lemma execActionCore_cbs {c c2 : Core} {a : Action} {effs : List Eff}
    (h : execActionCore c a = .ok (c2, effs)) :
    ∀ x, x ∈ effCbs effs → x ∈ actionCbs a := by
  intro x hx
  unfold execActionCore at h
  split at h
  · split at h
    · rename_i js cb heq
      obtain ⟨rfl, rfl⟩ : c = c2 ∧ [Eff.runJS js cb] = effs := by
        simpa using h
      simp [actionCbs, heq, argCbs, argCbsOf]
      cases cb with
      | none => simp [effCbs, effCbsOf] at hx
      | some n => simp [effCbs, effCbsOf] at hx; simp [hx]
    · cases h
  · split at h
    · split at h
      · rename_i html heq
        obtain ⟨rfl, rfl⟩ :
            ({ c with domDone := false, pageHtml := some html } = c2) ∧
              [Eff.loadLegacyPage html] = effs := by
          simpa using h
        simp [effCbs, effCbsOf] at hx
      · cases h
    · cases h

lemma drainGo_cbs :
    ∀ (q : List Action) (c c' : Core) (rem : List Action) (effs : List Eff),
      drainGo c q = .ok (c', rem, effs) →
      ∀ x, (x ∈ effCbs effs ∨ x ∈ actsCbs rem) → x ∈ actsCbs q := by
  intro q
  induction q with
  | nil =>
      intro c c' rem effs h x hx
      obtain ⟨rfl, rfl, rfl⟩ : c = c' ∧ [] = rem ∧ [] = effs := by
        simpa [drainGo] using h
      simp [effCbs, actsCbs] at hx
  | cons a t ih =>
      intro c c' rem effs h x hx
      cases hd : c.domDone with
      | false =>
          rw [drainGo, if_neg (by simp [hd])] at h
          obtain ⟨rfl, rfl, rfl⟩ : c = c' ∧ a :: t = rem ∧ [] = effs := by
            simpa using h
          simpa [effCbs] using hx
      | true =>
          rw [drainGo, if_pos (by simp [hd])] at h
          rcases he : execActionCore c a with e | ⟨ca, effs1⟩
          · simp [he] at h
          · simp only [he] at h
            rcases hr : drainGo ca t with e | ⟨cb, rem2, effs2⟩
            · simp [hr] at h
            · simp only [hr] at h
              obtain ⟨rfl, rfl, rfl⟩ : cb = c' ∧ rem2 = rem ∧ effs1 ++ effs2 = effs := by
                simpa using h
              rw [effCbs_append] at hx
              show x ∈ actsCbs (a :: t)
              rw [actsCbs]
              rcases hx with hx | hx
              · rcases List.mem_append.mp hx with hx | hx
                · exact List.mem_append.mpr (Or.inl (execActionCore_cbs he x hx))
                · exact List.mem_append.mpr
                    (Or.inr (ih ca cb rem2 effs2 hr x (Or.inl hx)))
              · exact List.mem_append.mpr
                  (Or.inr (ih ca cb rem2 effs2 hr x (Or.inr hx)))

lemma maybeRunActions_cbs {s s2 : VState} {effs : List Eff}
    (h : maybeRunActions s = .ok (s2, effs)) :
    ∀ x, (x ∈ effCbs effs ∨ x ∈ stateCbs s2) → x ∈ stateCbs s := by
  intro x hx
  unfold maybeRunActions at h
  split at h
  · obtain ⟨rfl, rfl⟩ : s = s2 ∧ [] = effs := by simpa using h
    rcases hx with hx | hx
    · simp [effCbs] at hx
    · exact hx
  · rcases hd : drainGo s.core s.pendingActions with e | ⟨c, rem, effs1⟩
    · simp [hd] at h
    · simp only [hd] at h
      obtain ⟨rfl, rfl⟩ :
          ({ core := c, pendingActions := rem } : VState) = s2 ∧ effs1 = effs := by
        simpa using h
      exact drainGo_cbs s.pendingActions s.core c rem effs1 hd x hx

lemma queueAction_cbs {s s2 : VState} {a : Action} {effs : List Eff}
    (h : queueAction s a = .ok (s2, effs)) :
    ∀ x, (x ∈ effCbs effs ∨ x ∈ stateCbs s2) → x ∈ stateCbs s ∨ x ∈ actionCbs a := by
  intro x hx
  unfold queueAction at h
  have h2 := maybeRunActions_cbs h x hx
  rw [stateCbs] at h2
  simp only [actsCbs_append, actsCbs, List.append_nil, List.mem_append] at h2
  rcases h2 with h2 | h2
  · exact Or.inl h2
  · exact Or.inr (by simpa [actsCbs] using h2)

lemma onBridgeCmd_domDone_cbs {env : Env} {s s2 : VState} {v : PyVal} {effs : List Eff}
    (h : onBridgeCmdFn env s "domDone" = .ok (s2, v, effs)) :
    ∀ x, (x ∈ effCbs effs ∨ x ∈ stateCbs s2) → x ∈ stateCbs s := by
  intro x hx
  unfold onBridgeCmdFn at h
  split at h
  · obtain ⟨rfl, rfl, rfl⟩ :
        s = s2 ∧ PyVal.pnone = v ∧ [Eff.log ("ignored late bridge cmd " ++ "domDone")] = effs := by
      simpa using h
    rcases hx with hx | hx
    · simp [effCbs, effCbsOf] at hx
    · exact hx
  · simp only [beq_self_eq_true, if_true] at h
    rcases hm : maybeRunActions
        { core := { s.core with filterSet := true, domDone := true },
          pendingActions := s.pendingActions } with e | ⟨s3, effs1⟩
    · simp [hm] at h
    · simp only [hm] at h
      obtain ⟨rfl, rfl, rfl⟩ : s3 = s2 ∧ PyVal.pnone = v ∧ effs1 = effs := by
        simpa using h
      exact maybeRunActions_cbs hm x hx

lemma runOp_cbs {env : Env} {s s2 : VState} {op : Op} {effs : List Eff}
    (h : runOp env s op = .ok (s2, effs)) :
    ∀ x, (x ∈ effCbs effs ∨ x ∈ stateCbs s2) → x ∈ stateCbs s ∨ x ∈ opCbs op := by
  intro x hx
  cases op with
  | opSetHtml html =>
      simp only [runOp, setHtmlOp] at h
      rcases hq : queueAction
          { core := { s.core with domDone := true }, pendingActions := [] }
          (mkSetHtmlAction html) with e | ⟨s3, effs1⟩
      · simp [hq] at h
      · simp only [hq] at h
        obtain ⟨rfl, rfl⟩ :
            ({ s3 with core := { s3.core with openLinksExternally := true } } = s2) ∧
              effs1 ++ [Eff.showView] = effs := by
          simpa using h
        rw [effCbs_append] at hx
        have hx2 : x ∈ effCbs effs1 ∨ x ∈ stateCbs s3 := by
          rcases hx with hx | hx
          · rcases List.mem_append.mp hx with hx | hx
            · exact Or.inl hx
            · simp [effCbs, effCbsOf] at hx
          · exact Or.inr (by simpa [stateCbs] using hx)
        have h3 := queueAction_cbs hq x hx2
        rcases h3 with h3 | h3
        · simp [stateCbs, actsCbs] at h3
        · simp [actionCbs, mkSetHtmlAction, argCbs, argCbsOf] at h3
  | opStdHtml html =>
      simp only [runOp, stdHtmlOp, setHtmlOp] at h
      rcases hq : queueAction
          { core := { s.core with domDone := true }, pendingActions := [] }
          (mkSetHtmlAction html) with e | ⟨s3, effs1⟩
      · simp [hq] at h
      · simp only [hq] at h
        obtain ⟨rfl, rfl⟩ :
            ({ s3 with core := { s3.core with openLinksExternally := true } } = s2) ∧
              effs1 ++ [Eff.showView] = effs := by
          simpa using h
        rw [effCbs_append] at hx
        have hx2 : x ∈ effCbs effs1 ∨ x ∈ stateCbs s3 := by
          rcases hx with hx | hx
          · rcases List.mem_append.mp hx with hx | hx
            · exact Or.inl hx
            · simp [effCbs, effCbsOf] at hx
          · exact Or.inr (by simpa [stateCbs] using hx)
        have h3 := queueAction_cbs hq x hx2
        rcases h3 with h3 | h3
        · simp [stateCbs, actsCbs] at h3
        · simp [actionCbs, mkSetHtmlAction, argCbs, argCbsOf] at h3
  | opEval js =>
      simp only [runOp, evalOp, evalWithCallbackOp] at h
      have h3 := queueAction_cbs h x hx
      rcases h3 with h3 | h3
      · exact Or.inl h3
      · simp [actionCbs, mkEvalAction, argCbs, argCbsOf] at h3
  | opEvalWithCallback js cb =>
      simp only [runOp, evalWithCallbackOp] at h
      have h3 := queueAction_cbs h x hx
      rcases h3 with h3 | h3
      · exact Or.inl h3
      · simp only [actionCbs, mkEvalAction, argCbs, argCbsOf, List.append_nil] at h3
        exact Or.inr (by simpa [opCbs] using h3)
  | opAdjustHeightToFit cb =>
      simp only [runOp, adjustHeightToFitOp, evalWithCallbackOp] at h
      have h3 := queueAction_cbs h x hx
      rcases h3 with h3 | h3
      · exact Or.inl h3
      · simp only [actionCbs, mkEvalAction, argCbs, argCbsOf, List.append_nil] at h3
        exact Or.inr (by simpa [opCbs] using h3)
  | opLoadTsPage page cb =>
      simp only [runOp, loadTsPageOp, evalWithCallbackOp] at h
      rcases hq : queueAction
          { s with core := { s.core with openLinksExternally := true, domDone := false } }
          (mkEvalAction (injectStyleScript, some cb)) with e | ⟨s3, effs1⟩
      · simp [hq] at h
      · simp only [hq] at h
        obtain ⟨rfl, rfl⟩ : s3 = s2 ∧ Eff.loadUrl page :: effs1 = effs := by
          simpa using h
        have hx2 : x ∈ effCbs effs1 ∨ x ∈ stateCbs s3 := by
          rcases hx with hx | hx
          · simp only [effCbs, effCbsOf, List.nil_append] at hx
            exact Or.inl hx
          · exact Or.inr hx
        have h3 := queueAction_cbs hq x hx2
        rcases h3 with h3 | h3
        · exact Or.inl (by simpa [stateCbs] using h3)
        · simp only [actionCbs, mkEvalAction, argCbs, argCbsOf, List.append_nil] at h3
          exact Or.inr (by simpa [opCbs] using h3)
  | opThemeDidChange night =>
      simp only [runOp, onThemeDidChangeOp, evalOp, evalWithCallbackOp] at h
      have h3 := queueAction_cbs h x hx
      rcases h3 with h3 | h3
      · exact Or.inl h3
      · simp [actionCbs, mkEvalAction, argCbs, argCbsOf] at h3
  | opDomDone =>
      simp only [runOp] at h
      rcases hb : onBridgeCmdFn env s "domDone" with e | ⟨s3, v, effs1⟩
      · simp [hb] at h
      · simp only [hb] at h
        obtain ⟨rfl, rfl⟩ : s3 = s2 ∧ effs1 = effs := by simpa using h
        exact Or.inl (onBridgeCmd_domDone_cbs hb x hx)

lemma runOps_cbs {env : Env} :
    ∀ (ops : List Op) (s s2 : VState) (tr : List Eff),
      runOps env ops s = .ok (s2, tr) →
      ∀ x, (x ∈ effCbs tr ∨ x ∈ stateCbs s2) → x ∈ stateCbs s ∨ x ∈ opsCbs ops := by
  intro ops
  induction ops with
  | nil =>
      intro s s2 tr h x hx
      obtain ⟨rfl, rfl⟩ : s = s2 ∧ [] = tr := by simpa [runOps] using h
      rcases hx with hx | hx
      · simp [effCbs] at hx
      · exact Or.inl hx
  | cons op t ih =>
      intro s s2 tr h x hx
      rw [runOps] at h
      rcases h1 : runOp env s op with e | ⟨s3, effs1⟩
      · simp [h1] at h
      · simp only [h1] at h
        rcases h2 : runOps env t s3 with e | ⟨s4, effs2⟩
        · simp [h2] at h
        · simp only [h2] at h
          obtain ⟨rfl, rfl⟩ : s4 = s2 ∧ effs1 ++ effs2 = tr := by simpa using h
          rw [effCbs_append] at hx
          have step : x ∈ effCbs effs2 ∨ x ∈ stateCbs s4 → x ∈ stateCbs s ∨ x ∈ opsCbs (op :: t) := by
            intro hy
            rcases ih s3 s4 effs2 h2 x hy with hz | hz
            · rcases runOp_cbs h1 x (Or.inr hz) with hw | hw
              · exact Or.inl hw
              · exact Or.inr (by rw [opsCbs]; exact List.mem_append.mpr (Or.inl hw))
            · exact Or.inr (by rw [opsCbs]; exact List.mem_append.mpr (Or.inr hz))
          rcases hx with hx | hx
          · rcases List.mem_append.mp hx with hx | hx
            · rcases runOp_cbs h1 x (Or.inl hx) with hw | hw
              · exact Or.inl hw
              · exact Or.inr (by rw [opsCbs]; exact List.mem_append.mpr (Or.inl hw))
            · exact step (Or.inl hx)
          · exact step (Or.inr hx)

/-- Claim C2: `setHtml` (the content-load reset) at any point in the view's live
lifecycle empties the pending-action queue and leaves `_domDone = False`; the
reset itself submits no queued script to the engine, and a callback token `c`
that only the dropped actions mentioned is never submitted by any subsequent
sequence of public operations — the dropped callback can never fire. In
particular, in `LoadContent(A); EvalScript(S1); LoadContent(B)` with `A` never
signalling ready, `S1` is discarded and never executed. -/
theorem C2_reset_drops_actions (env : Env) (s : VState) (html : String)
    (ops : List Op) (c : Nat)
    (hdel : s.core.deleted = false) (hc : c ∉ opsCbs ops) :
    ∃ s1 effs1, setHtmlOp s html = .ok (s1, effs1) ∧
      s1.pendingActions = [] ∧ s1.core.domDone = false ∧
      (∀ js cb, Eff.runJS js cb ∉ effs1) ∧
      ∀ s2 tr, runOps env ops s1 = .ok (s2, tr) →
        ∀ js, Eff.runJS js (some c) ∉ tr := by
  refine ⟨_, _, setHtmlOp_eq s html hdel, rfl, rfl, ?_, ?_⟩
  · intro js cb hmem
    simp at hmem
  · intro s2 tr h js hmem
    have hx : c ∈ effCbs tr := mem_effCbs_of_runJS hmem
    rcases runOps_cbs ops _ s2 tr h c (Or.inl hx) with h1 | h1
    · simp [stateCbs, actsCbs] at h1
    · exact hc h1

/-- The state after `LoadContent(A); EvalScript(S1)` with `A` never having
signalled ready: content `A` loaded, `_domDone` still `False`, and the `S1`
evaluation (callback token 1) pending. -/
def c2PreState : VState :=
  { core := { initCore with domDone := false, pageHtml := some "A" },
    pendingActions := [mkEvalAction ("S1", some 1)] }

theorem C2_reset_drops_actions_witness :
    c2PreState.core.deleted = false ∧ (1 : Nat) ∉ opsCbs [Op.opDomDone] ∧
    ∃ s1 effs1, setHtmlOp c2PreState "B" = .ok (s1, effs1) ∧
      s1.pendingActions = [] ∧ s1.core.domDone = false ∧
      (∀ js cb, Eff.runJS js cb ∉ effs1) ∧
      ∀ s2 tr, runOps plainEnv [Op.opDomDone] s1 = .ok (s2, tr) →
        ∀ js, Eff.runJS js (some 1) ∉ tr :=
  ⟨rfl, by decide,
    C2_reset_drops_actions plainEnv c2PreState "B" [Op.opDomDone] 1 rfl (by decide)⟩

/-! ## Queue well-formedness (reachability of the `unknown action` branch) -/

/-- A queue entry produced by the public interface: an `("eval", js, cb)` or a
`("setHtml", html)` tuple. -/
def wfAct (a : Action) : Prop :=
  (∃ p, a = mkEvalAction p) ∨ (∃ h, a = mkSetHtmlAction h)

lemma drainGo_wf :
    ∀ (q : List Action) (c : Core), (∀ a ∈ q, wfAct a) →
      ∃ c' rem effs, drainGo c q = .ok (c', rem, effs) ∧ ∀ a ∈ rem, wfAct a := by
  intro q
  induction q with
  | nil => intro c _; exact ⟨c, [], [], rfl, by simp⟩
  | cons a t ih =>
      intro c hwf
      cases hd : c.domDone with
      | false =>
          exact ⟨c, a :: t, [], by rw [drainGo, if_neg (by simp [hd])], hwf⟩
      | true =>
          have ht : ∀ b ∈ t, wfAct b := fun b hb => hwf b (by simp [hb])
          rcases hwf a (by simp) with ⟨p, rfl⟩ | ⟨hh, rfl⟩
          · obtain ⟨c', rem, effs, h1, h2⟩ := ih c ht
            exact ⟨c', rem, Eff.runJS p.1 p.2 :: effs,
              by simp [drainGo, hd, execActionCore_eval, h1], h2⟩
          · obtain ⟨c', rem, effs, h1, h2⟩ :=
              ih { c with domDone := false, pageHtml := some hh } ht
            exact ⟨c', rem, Eff.loadLegacyPage hh :: effs,
              by simp [drainGo, hd, execActionCore_setHtml, h1], h2⟩

lemma maybeRunActions_wf {s : VState} (hwf : ∀ a ∈ s.pendingActions, wfAct a) :
    ∃ s2 effs, maybeRunActions s = .ok (s2, effs) ∧ ∀ a ∈ s2.pendingActions, wfAct a := by
  cases hdel : s.core.deleted with
  | true => exact ⟨s, [], by simp [maybeRunActions, hdel], hwf⟩
  | false =>
      obtain ⟨c', rem, effs, h1, h2⟩ := drainGo_wf s.pendingActions s.core hwf
      exact ⟨{ core := c', pendingActions := rem }, effs,
        by simp [maybeRunActions, hdel, h1], h2⟩

lemma queueAction_wf {s : VState} {a : Action} (hwf : ∀ b ∈ s.pendingActions, wfAct b)
    (ha : wfAct a) :
    ∃ s2 effs, queueAction s a = .ok (s2, effs) ∧ ∀ b ∈ s2.pendingActions, wfAct b := by
  unfold queueAction
  apply maybeRunActions_wf
  intro b hb
  rcases List.mem_append.mp hb with hb | hb
  · exact hwf b hb
  · rw [List.mem_singleton.mp hb]; exact ha

lemma onBridgeCmd_domDone_wf (env : Env) {s : VState}
    (hwf : ∀ a ∈ s.pendingActions, wfAct a) :
    ∃ s2 v effs, onBridgeCmdFn env s "domDone" = .ok (s2, v, effs) ∧
      ∀ a ∈ s2.pendingActions, wfAct a := by
  cases hst : shouldIgnoreWebEvent s.core env.colPresent with
  | true =>
      exact ⟨s, PyVal.pnone, [Eff.log ("ignored late bridge cmd " ++ "domDone")],
        by simp [onBridgeCmdFn, hst], hwf⟩
  | false =>
      obtain ⟨s2, effs, h1, h2⟩ := maybeRunActions_wf
        (s := { core := { s.core with filterSet := true, domDone := true },
                pendingActions := s.pendingActions }) hwf
      exact ⟨s2, PyVal.pnone, effs, by simp [onBridgeCmdFn, hst, h1], h2⟩

lemma setHtmlOp_deleted (s : VState) (html : String) (hdel : s.core.deleted = true) :
    setHtmlOp s html =
      .ok ({ core := { s.core with domDone := true, openLinksExternally := true },
             pendingActions := [mkSetHtmlAction html] },
           [Eff.showView]) := by
  simp [setHtmlOp, queueAction, maybeRunActions, hdel]

lemma setHtmlOp_wf (s : VState) (html : String) :
    ∃ s2 effs, setHtmlOp s html = .ok (s2, effs) ∧ ∀ a ∈ s2.pendingActions, wfAct a := by
  cases hdel : s.core.deleted with
  | false =>
      rw [setHtmlOp_eq s html hdel]
      exact ⟨_, _, rfl, by simp⟩
  | true =>
      rw [setHtmlOp_deleted s html hdel]
      refine ⟨_, _, rfl, fun a ha => ?_⟩
      rw [List.mem_singleton.mp ha]
      exact Or.inr ⟨html, rfl⟩

lemma loadTsPageOp_eq (s : VState) (page : String) (cb : Nat) :
    loadTsPageOp s page cb =
      .ok ({ core := { s.core with openLinksExternally := true, domDone := false },
             pendingActions :=
               s.pendingActions ++ [mkEvalAction (injectStyleScript, some cb)] },
           [Eff.loadUrl page]) := by
  cases hdel : s.core.deleted with
  | true => simp [loadTsPageOp, evalWithCallbackOp, queueAction, maybeRunActions, hdel]
  | false =>
      simp [loadTsPageOp, evalWithCallbackOp, queueAction, maybeRunActions, hdel,
            drainGo_not_ready]

lemma runOp_wf (env : Env) (op : Op) {s : VState}
    (hwf : ∀ a ∈ s.pendingActions, wfAct a) :
    ∃ s2 effs, runOp env s op = .ok (s2, effs) ∧ ∀ a ∈ s2.pendingActions, wfAct a := by
  cases op with
  | opSetHtml html =>
      simp only [runOp]
      exact setHtmlOp_wf s html
  | opStdHtml html =>
      simp only [runOp, stdHtmlOp]
      exact setHtmlOp_wf s html
  | opEval js =>
      simp only [runOp, evalOp, evalWithCallbackOp]
      exact queueAction_wf hwf (Or.inl ⟨(js, none), rfl⟩)
  | opEvalWithCallback js cb =>
      simp only [runOp, evalWithCallbackOp]
      exact queueAction_wf hwf (Or.inl ⟨(js, some cb), rfl⟩)
  | opAdjustHeightToFit cb =>
      simp only [runOp, adjustHeightToFitOp, evalWithCallbackOp]
      exact queueAction_wf hwf (Or.inl ⟨_, rfl⟩)
  | opLoadTsPage page cb =>
      rw [runOp, loadTsPageOp_eq]
      refine ⟨_, _, rfl, fun a ha => ?_⟩
      rcases List.mem_append.mp ha with ha | ha
      · exact hwf a ha
      · rw [List.mem_singleton.mp ha]
        exact Or.inl ⟨_, rfl⟩
  | opThemeDidChange night =>
      simp only [runOp, onThemeDidChangeOp, evalOp, evalWithCallbackOp]
      exact queueAction_wf hwf (Or.inl ⟨_, rfl⟩)
  | opDomDone =>
      obtain ⟨s3, v, effs, h1, h2⟩ := onBridgeCmd_domDone_wf env hwf
      refine ⟨s3, effs, ?_, h2⟩
      simp only [runOp, h1]

lemma runOps_wf (env : Env) :
    ∀ (ops : List Op) (s : VState), (∀ a ∈ s.pendingActions, wfAct a) →
      ∃ s2 tr, runOps env ops s = .ok (s2, tr) ∧ ∀ a ∈ s2.pendingActions, wfAct a := by
  intro ops
  induction ops with
  | nil => intro s hwf; exact ⟨s, [], rfl, hwf⟩
  | cons op t ih =>
      intro s hwf
      obtain ⟨s2, effs, h1, h2⟩ := runOp_wf env op hwf
      obtain ⟨s3, tr, h3, h4⟩ := ih s2 h2
      exact ⟨s3, effs ++ tr, by simp [runOps, h1, h3], h4⟩

/-- Claim C10: starting from a freshly constructed view, every sequence of
public operations (`setHtml`, `stdHtml`, `eval`, `evalWithCallback`,
`adjustHeightToFit`, `load_ts_page`, `on_theme_did_change`, `"domDone"` receipt)
succeeds — in particular the `raise Exception("unknown action: ...")` branch of
`_maybeRunActions` is never taken — and every tuple ever left in
`_pendingActions` has name `"eval"` or `"setHtml"`. -/
theorem C10_no_unknown_action (env : Env) (ops : List Op) :
    ∃ s2 tr, runOps env ops initState = .ok (s2, tr) ∧
      ∀ a ∈ s2.pendingActions, a.name = "eval" ∨ a.name = "setHtml" := by
  obtain ⟨s2, tr, h1, h2⟩ := runOps_wf env ops initState (by simp [initState])
  refine ⟨s2, tr, h1, fun a ha => ?_⟩
  rcases h2 a ha with ⟨p, rfl⟩ | ⟨hh, rfl⟩
  · exact Or.inl rfl
  · exact Or.inr rfl

end AnkiWeb
